import Mathlib

/-!
Verification of the rafx frame-graph renderer against its specification.

The development shallowly embeds the parts of the Rust code base that the
claims are about:

* `renderer-ext/src/resource_managers/asset_lookup.rs` — the
  committed/uncommitted double-buffered `AssetLookup` (`set_uncommitted`,
  `commit`, `free`, `get_latest`, `get_committed`).
* `demo/src/game_renderer/render_frame_job.rs` — `RenderFrameJob::render_async`.
* `rafx-plugins/src/pipelines/modern/graph_generator/mod.rs` —
  `generate_render_graph` as a trace of render-graph builder operations.
* The render-graph compiler (builder validation, Kahn scheduler, lifetime /
  aliasing allocator, barrier synthesizer).  Its code is not part of the
  excerpted sources, so those components are modelled from the
  specification text (sections 4.1–4.4); each such definition is marked
  `Modelled from the spec`.

Rust `HashMap`s keyed by load handles are embedded as functions
`Nat → Option _`; Rust panics (`unwrap`, `assert!`, `unreachable!`) are made
explicit with `Except PanicKind`.
-/

namespace RafxProof

/-! ## Asset lookup (`asset_lookup.rs`) -/

/-- A Rust panic, made explicit in the embedding:
`unwrap` on `None`, a failed `assert!`, or reaching `unreachable!()`. -/
inductive PanicKind where
  | unwrapNone
  | assertFailed
  | unreachableCode
deriving DecidableEq, Repr

/-- `LoadedAssetState` from `asset_lookup.rs`: a single asset which may
simultaneously have committed and uncommitted loaded state. -/
structure LoadedAssetState (α : Type) where
  committed : Option α
  uncommitted : Option α
deriving DecidableEq, Repr

/-- `Default for LoadedAssetState`: both slots empty. -/
def LoadedAssetState.default {α : Type} : LoadedAssetState α :=
  ⟨none, none⟩

/-- `AssetLookup.loaded_assets : FnvHashMap<LoadHandle, LoadedAssetState>`,
embedded as a function from load handles (numbers) to optional entries. -/
def AssetLookup (α : Type) : Type :=
  Nat → Option (LoadedAssetState α)

/-- The empty lookup (`AssetLookup::default`). -/
def AssetLookup.empty {α : Type} : AssetLookup α :=
  fun _ => none

/-- `AssetLookup::set_uncommitted`:
`self.loaded_assets.entry(load_handle).or_default().uncommitted = Some(loaded_asset)`. -/
def set_uncommitted {α : Type} (m : AssetLookup α) (load_handle : Nat) (loaded_asset : α) :
    AssetLookup α :=
  fun h =>
    if h = load_handle then
      some ⟨((m load_handle).getD LoadedAssetState.default).committed, some loaded_asset⟩
    else m h

/-- `AssetLookup::commit`:
`let state = self.loaded_assets.get_mut(&load_handle).unwrap();`
`state.committed = state.uncommitted.take();`
The `unwrap` on an absent handle is the explicit panic. -/
def commit {α : Type} (m : AssetLookup α) (load_handle : Nat) :
    Except PanicKind (AssetLookup α) :=
  match m load_handle with
  | none => .error .unwrapNone
  | some state =>
      .ok (fun h =>
        if h = load_handle then some ⟨state.uncommitted, none⟩ else m h)

/-- `AssetLookup::free`:
`let old = self.loaded_assets.remove(&load_handle); assert!(old.is_some());`. -/
def free {α : Type} (m : AssetLookup α) (load_handle : Nat) :
    Except PanicKind (AssetLookup α) :=
  match m load_handle with
  | none => .error .assertFailed
  | some _ => .ok (fun h => if h = load_handle then none else m h)

/-- `AssetLookup::get_latest`: prefer the uncommitted slot, then the
committed slot; an entry with both slots empty hits `unreachable!()`. -/
def get_latest {α : Type} (m : AssetLookup α) (load_handle : Nat) :
    Except PanicKind (Option α) :=
  match m load_handle with
  | some loaded_assets =>
      match loaded_assets.uncommitted with
      | some uncommitted => .ok (some uncommitted)
      | none =>
          match loaded_assets.committed with
          | some committed => .ok (some committed)
          | none => .error .unreachableCode
  | none => .ok none

/-- `AssetLookup::get_committed`: the committed slot, if any. -/
def get_committed {α : Type} (m : AssetLookup α) (load_handle : Nat) : Option α :=
  match m load_handle with
  | some loaded_assets => loaded_assets.committed
  | none => none

/-- Client operations on an `AssetLookup`, used to describe reachable states. -/
inductive LookupOp (α : Type) where
  | setUncommitted (load_handle : Nat) (loaded_asset : α)
  | commitOp (load_handle : Nat)
  | freeOp (load_handle : Nat)
deriving DecidableEq, Repr

/-- Run one client operation. -/
def applyOp {α : Type} : LookupOp α → AssetLookup α → Except PanicKind (AssetLookup α)
  | .setUncommitted h a, m => .ok (set_uncommitted m h a)
  | .commitOp h, m => commit m h
  | .freeOp h, m => free m h

/-- Run a sequence of client operations, propagating the first panic. -/
def applyOps {α : Type} : List (LookupOp α) → AssetLookup α → Except PanicKind (AssetLookup α)
  | [], m => .ok m
  | op :: rest, m =>
    match applyOp op m with
    | .ok m' => applyOps rest m'
    | .error e => .error e

/-- The entry of handle `h` after running `ops` from the empty lookup. -/
def stateAt {α : Type} (ops : List (LookupOp α)) (h : Nat) :
    Except PanicKind (Option (LoadedAssetState α)) :=
  match applyOps ops AssetLookup.empty with
  | .ok m => .ok (m h)
  | .error e => .error e

/-- `get_latest` observed after running `ops` from the empty lookup. -/
def latestAt {α : Type} (ops : List (LookupOp α)) (h : Nat) :
    Except PanicKind (Option α) :=
  match applyOps ops AssetLookup.empty with
  | .ok m => get_latest m h
  | .error e => .error e

/-- `commit`/`free` applied only to handles present in the lookup
(the precondition named by the claim). -/
def opPresentOK {α : Type} : LookupOp α → AssetLookup α → Bool
  | .setUncommitted _ _, _ => true
  | .commitOp h, m => (m h).isSome
  | .freeOp h, m => (m h).isSome

/-- Every operation in the sequence is applied to a present handle. -/
def opsPresentOK {α : Type} : List (LookupOp α) → AssetLookup α → Bool
  | [], _ => true
  | op :: rest, m =>
    opPresentOK op m &&
      (match applyOp op m with
       | .ok m' => opsPresentOK rest m'
       | .error _ => false)

/-- The stronger per-operation precondition: `free` requires a present handle
and `commit` requires a handle whose uncommitted slot is set. -/
def opReadyOK {α : Type} : LookupOp α → AssetLookup α → Bool
  | .setUncommitted _ _, _ => true
  | .commitOp h, m =>
    match m h with
    | some st => st.uncommitted.isSome
    | none => false
  | .freeOp h, m => (m h).isSome

/-- Every operation in the sequence satisfies `opReadyOK` when it runs. -/
def opsReadyOK {α : Type} : List (LookupOp α) → AssetLookup α → Bool
  | [], _ => true
  | op :: rest, m =>
    opReadyOK op m &&
      (match applyOp op m with
       | .ok m' => opsReadyOK rest m'
       | .error _ => false)

/-- The invariant of claim C9: every present entry has at least one slot set. -/
def SlotInvariant {α : Type} (m : AssetLookup α) : Prop :=
  ∀ h st, m h = some st → st.committed.isSome = true ∨ st.uncommitted.isSome = true

theorem slotInvariant_step {α : Type} {op : LookupOp α} {m m' : AssetLookup α}
    (hok : opReadyOK op m = true) (happ : applyOp op m = .ok m')
    (hinv : SlotInvariant m) : SlotInvariant m' := by
  cases op with
  | setUncommitted hdl a =>
      simp only [applyOp, Except.ok.injEq] at happ
      subst happ
      intro h st hst
      by_cases hh : h = hdl
      · subst hh
        simp only [set_uncommitted, if_pos rfl, if_true, Option.some.injEq] at hst
        right
        rw [← hst]
        rfl
      · rw [set_uncommitted, if_neg hh] at hst
        exact hinv h st hst
  | commitOp hdl =>
      simp only [applyOp, commit] at happ
      cases hm : m hdl with
      | none => rw [hm] at happ; cases happ
      | some st0 =>
          rw [hm] at happ
          simp only [Except.ok.injEq] at happ
          subst happ
          simp only [opReadyOK, hm] at hok
          intro h st hst
          by_cases hh : h = hdl
          · subst hh
            simp only [if_pos rfl, if_true, Option.some.injEq] at hst
            left
            rw [← hst]
            exact hok
          · simp only [if_neg hh] at hst
            exact hinv h st hst
  | freeOp hdl =>
      simp only [applyOp, free] at happ
      cases hm : m hdl with
      | none => rw [hm] at happ; cases happ
      | some st0 =>
          rw [hm] at happ
          simp only [Except.ok.injEq] at happ
          subst happ
          intro h st hst
          by_cases hh : h = hdl
          · subst hh
            simp only [if_pos rfl, if_true] at hst
            exact Option.noConfusion hst
          · simp only [if_neg hh] at hst
            exact hinv h st hst

theorem slotInvariant_run {α : Type} :
    ∀ (ops : List (LookupOp α)) (m m' : AssetLookup α),
      opsReadyOK ops m = true → applyOps ops m = .ok m' →
      SlotInvariant m → SlotInvariant m'
  | [], m, m', _, happ, hinv => by
      simp only [applyOps, Except.ok.injEq] at happ
      subst happ; exact hinv
  | op :: rest, m, m', hok, happ, hinv => by
      simp only [opsReadyOK, Bool.and_eq_true] at hok
      simp only [applyOps] at happ
      cases ha : applyOp op m with
      | error e => rw [ha] at happ; cases happ
      | ok mid =>
          rw [ha] at happ
          rw [ha] at hok
          exact slotInvariant_run rest mid m' hok.2 happ
            (slotInvariant_step hok.1 ha hinv)

theorem get_latest_no_unreachable {α : Type} {m : AssetLookup α}
    (hinv : SlotInvariant m) (h : Nat) :
    get_latest m h ≠ Except.error PanicKind.unreachableCode := by
  intro hbad
  cases hm : m h with
  | none => simp [get_latest, hm] at hbad
  | some st =>
      cases hu : st.uncommitted with
      | some u => simp [get_latest, hm, hu] at hbad
      | none =>
          cases hc : st.committed with
          | some c => simp [get_latest, hm, hu, hc] at hbad
          | none =>
              rcases hinv h st hm with hco | huo
              · rw [hc] at hco
                simp at hco
              · rw [hu] at huo
                simp at huo

/-- C8: `commit(load_handle)` on a present handle moves the value of the
uncommitted slot into the committed slot in a single swap — afterwards
`get_committed` returns the asset that was uncommitted before the call and
the uncommitted slot is empty — and leaves every other handle's entry
unchanged. -/
theorem C8_commit_swap {α : Type} (m : AssetLookup α) (load_handle : Nat)
    (st : LoadedAssetState α) (hpres : m load_handle = some st) :
    ∃ m', commit m load_handle = .ok m' ∧
      get_committed m' load_handle = st.uncommitted ∧
      m' load_handle = some ⟨st.uncommitted, none⟩ ∧
      ∀ h, h ≠ load_handle → m' h = m h := by
  refine ⟨fun h => if h = load_handle then some ⟨st.uncommitted, none⟩ else m h,
    ?_, ?_, ?_, ?_⟩
  · unfold commit
    rw [hpres]
  · simp [get_committed]
  · simp
  · intro h hh
    simp [if_neg hh]

/-- Witness for C8 at a concrete lookup holding one pending asset. -/
theorem C8_commit_swap_witness :
    (set_uncommitted (AssetLookup.empty : AssetLookup Nat) 0 7) 0 =
      some ⟨none, some 7⟩ ∧
    ∃ m', commit (set_uncommitted (AssetLookup.empty : AssetLookup Nat) 0 7) 0 = .ok m' ∧
      get_committed m' 0 = some 7 ∧
      m' 0 = some ⟨some 7, none⟩ ∧
      ∀ h, h ≠ 0 → m' h = set_uncommitted (AssetLookup.empty : AssetLookup Nat) 0 7 h :=
  ⟨rfl, C8_commit_swap _ 0 ⟨none, some 7⟩ rfl⟩

/-- The sequence set_uncommitted(0); commit(0); commit(0).  Each commit is
applied to a present handle, as claim C9's precondition requires. -/
def doubleCommitOps : List (LookupOp Nat) :=
  [.setUncommitted 0 7, .commitOp 0, .commitOp 0]

/-- Counterexample to C9 as stated: after `doubleCommitOps` — whose every
commit is applied to a present handle — handle 0 is still present but both
of its slots are empty, and `get_latest` reaches its `unreachable!()` branch. -/
theorem C9_counterexample :
    opsPresentOK doubleCommitOps AssetLookup.empty = true ∧
    stateAt doubleCommitOps 0 = .ok (some ⟨none, none⟩) ∧
    latestAt doubleCommitOps 0 = .error PanicKind.unreachableCode :=
  ⟨rfl, rfl, rfl⟩

/-- C9 (amended): when `free` is only applied to present handles and `commit`
only to handles whose uncommitted slot is set, every handle present in a
reachable state has at least one slot set, and `get_latest` never reaches its
unreachable branch. -/
theorem C9_slot_invariant {α : Type} (ops : List (LookupOp α)) (h : Nat)
    (st : LoadedAssetState α)
    (hready : opsReadyOK ops AssetLookup.empty = true)
    (hstate : stateAt ops h = .ok (some st)) :
    (st.committed.isSome = true ∨ st.uncommitted.isSome = true) ∧
    latestAt ops h ≠ Except.error PanicKind.unreachableCode := by
  cases happ : applyOps ops AssetLookup.empty with
  | error e => simp [stateAt, happ] at hstate
  | ok m =>
      simp only [stateAt, happ, Except.ok.injEq] at hstate
      have hinv : SlotInvariant m :=
        slotInvariant_run ops AssetLookup.empty m hready happ
          (fun _ _ hst => Option.noConfusion hst)
      refine ⟨hinv h st hstate, ?_⟩
      simp only [latestAt, happ]
      exact get_latest_no_unreachable hinv h

/-- Witness for the amended C9 at a concrete operation sequence. -/
theorem C9_slot_invariant_witness :
    opsReadyOK [LookupOp.setUncommitted 0 (3 : Nat), LookupOp.commitOp 0]
      AssetLookup.empty = true ∧
    stateAt [LookupOp.setUncommitted 0 (3 : Nat), LookupOp.commitOp 0] 0 =
      .ok (some ⟨some 3, none⟩) ∧
    (((⟨some 3, none⟩ : LoadedAssetState Nat).committed.isSome = true ∨
      (⟨some 3, none⟩ : LoadedAssetState Nat).uncommitted.isSome = true) ∧
      latestAt [LookupOp.setUncommitted 0 (3 : Nat), LookupOp.commitOp 0] 0 ≠
        Except.error PanicKind.unreachableCode) :=
  ⟨rfl, rfl, C9_slot_invariant _ 0 _ rfl rfl⟩

/-- A directly constructed lookup whose entry for handle 0 has both slots
empty (`AssetLookup`'s fields are public in the source, so this state is
constructible). -/
def bothNoneLookup : AssetLookup Nat :=
  fun h => if h = 0 then some ⟨none, none⟩ else none

/-- Counterexample to C10 as stated: at an entry with neither slot set,
`get_latest` does not return `None` — it hits `unreachable!()`. -/
theorem C10_counterexample :
    get_latest bothNoneLookup 0 = .error PanicKind.unreachableCode ∧
    get_latest bothNoneLookup 0 ≠ .ok none := by
  constructor <;> simp [get_latest, bothNoneLookup]

/-- The `get_latest` contract in the amended claim's words: the uncommitted
asset when one exists, otherwise the committed asset when one exists,
otherwise `None` when the handle has no entry at all; a present entry with
both slots empty panics (`unreachable!`). -/
def get_latest_contract {α : Type} (m : AssetLookup α) (h : Nat) :
    Except PanicKind (Option α) :=
  match m h with
  | none => .ok none
  | some st =>
      match st.uncommitted.orElse (fun _ => st.committed) with
      | some a => .ok (some a)
      | none => .error .unreachableCode

/-- C10 (amended): `get_latest` satisfies `get_latest_contract`, and a
pending (uncommitted, never committed) asset is already visible through
`get_latest` while `get_committed` returns `None` for it. -/
theorem C10_get_latest_priority {α : Type} (m : AssetLookup α) (h : Nat) :
    get_latest m h = get_latest_contract m h ∧
    (∀ u : α, m h = some ⟨none, some u⟩ →
      get_latest m h = .ok (some u) ∧ get_committed m h = none) := by
  constructor
  · cases hm : m h with
    | none => simp [get_latest, get_latest_contract, hm]
    | some st =>
        cases hu : st.uncommitted <;> cases hc : st.committed <;>
          simp [get_latest, get_latest_contract, hm, hu, hc, Option.orElse]
  · intro u hmu
    constructor
    · simp [get_latest, hmu]
    · simp [get_committed, hmu]

/-- Witness for the amended C10 at a concrete pending asset. -/
theorem C10_get_latest_priority_witness :
    get_latest (set_uncommitted (AssetLookup.empty : AssetLookup Nat) 0 5) 0 =
      .ok (some 5) ∧
    get_committed (set_uncommitted (AssetLookup.empty : AssetLookup Nat) 0 5) 0 = none :=
  (C10_get_latest_priority (set_uncommitted (AssetLookup.empty : AssetLookup Nat) 0 5) 0).2
    5 rfl

/-! ## Render frame job (`render_frame_job.rs`) -/

/-- The interaction of `render_async` with the presentation layer
(`FrameInFlight`): either `present` with the command buffers, or
`cancel_present` with the error in place of command buffers. -/
inductive PresentAction (ε β : Type) where
  | present (command_buffers : List β)
  | cancelPresent (err : ε)
deriving DecidableEq, Repr

/-- `RenderFrameJob::do_render_async`: prepare jobs never fail (`prepare`
returns data directly); `render_graph.execute_graph(..)?` propagates the
graph error and a success returns the command buffer list.  The prepare step
and the graph execution itself are abstracted as the given result. -/
def do_render_async {ε β : Type} (execute_graph_result : Except ε (List β)) :
    Except ε (List β) :=
  match execute_graph_result with
  | .ok command_buffers => .ok command_buffers
  | .error e => .error e

/-- `RenderFrameJob::render_async`: run `do_render_async`, then
`Ok(command_buffers)` is presented and `Err(err)` is handed to
`cancel_present(Err(err))`. -/
def render_async {ε β : Type} (execute_graph_result : Except ε (List β)) :
    PresentAction ε β :=
  match do_render_async execute_graph_result with
  | .ok command_buffers => .present command_buffers
  | .error err => .cancelPresent err

/-- C6: if graph execution returns an error, no command buffers are handed to
presentation and the error is propagated — the presentation layer receives the
error in place of command buffers; if execution succeeds, the produced command
buffer list is presented. -/
theorem C6_error_propagation {ε β : Type} (r : Except ε (List β)) :
    (∀ e, r = .error e → render_async r = .cancelPresent e ∧
      ∀ cbs, render_async r ≠ .present cbs) ∧
    (∀ cbs, r = .ok cbs → render_async r = .present cbs) := by
  constructor
  · intro e he
    subst he
    exact ⟨rfl, fun cbs hbad => PresentAction.noConfusion hbad⟩
  · intro cbs hc
    subst hc
    rfl

/-- Witness for C6 at a concrete failing and a concrete succeeding frame. -/
theorem C6_error_propagation_witness :
    (render_async (Except.error 4 : Except Nat (List Nat)) = .cancelPresent 4 ∧
      ∀ cbs, render_async (Except.error 4 : Except Nat (List Nat)) ≠ .present cbs) ∧
    render_async (Except.ok [1, 2] : Except Nat (List Nat)) = .present [1, 2] :=
  ⟨(C6_error_propagation (Except.error 4)).1 4 rfl,
   (C6_error_propagation (Except.ok [1, 2])).2 [1, 2] rfl⟩

/-! ## Modern pipeline graph generator (`graph_generator/mod.rs`) -/

/-- The `RafxResourceState` values used by `generate_render_graph`. -/
inductive RafxResourceState where
  | PRESENT
  | UNORDERED_ACCESS
deriving DecidableEq, Repr

/-- One render-graph builder operation recorded by the generator trace. -/
inductive BuilderOp where
  | addExternalImage (id : Nat) (entry final : RafxResourceState)
  | addExternalBuffer (id : Nat) (entry final : RafxResourceState)
  | passResource (id : Nat)
  | writeExternalImage (external_image_id : Nat) (producing_image_id : Nat)
deriving DecidableEq, Repr

/-- The `RenderGraphBuilder` observed through the operations performed on it,
with its running resource-id counter. -/
structure BuilderTrace where
  next_id : Nat
  ops : List BuilderOp
deriving DecidableEq, Repr

/-- `RenderGraphBuilder::default()`. -/
def BuilderTrace.emptyTrace : BuilderTrace := ⟨0, []⟩

/-- `RenderGraphBuilder::add_external_image(resource, view_options,
entry_state, exit_state) -> id`. -/
def add_external_image (g : BuilderTrace) (entry final : RafxResourceState) :
    Nat × BuilderTrace :=
  (g.next_id, ⟨g.next_id + 1, g.ops ++ [.addExternalImage g.next_id entry final]⟩)

/-- `RenderGraphBuilder::add_external_buffer(resource, entry_state,
exit_state) -> id`. -/
def add_external_buffer (g : BuilderTrace) (entry final : RafxResourceState) :
    Nat × BuilderTrace :=
  (g.next_id, ⟨g.next_id + 1, g.ops ++ [.addExternalBuffer g.next_id entry final]⟩)

/-- Modelled from the spec: the pass helper modules (`depth_prepass`,
`shadow_map_pass`, `light_binning`, `opaque_pass`, `bloom_extract_pass`,
`luma_pass`, `bloom_blur_pass`, `bloom_combine_pass`, `debug_pip_pass`,
`ui_pass`) and `ShadowMapAtlas::add_to_render_graph` are not part of the
excerpted sources.  Per the spec (§1, §2) individual render passes are
clients of the builder API that create transient resources and register
nodes; only the generator itself registers and writes the swapchain's
external image.  Each helper call is modelled as producing one resource id
through the builder. -/
def model_pass (g : BuilderTrace) : Nat × BuilderTrace :=
  (g.next_id, ⟨g.next_id + 1, g.ops ++ [.passResource g.next_id]⟩)

/-- The fields of `ModernPipelineRenderGraphConfig` that control branching in
`generate_render_graph`. -/
structure GraphGenConfig where
  enable_hdr : Bool
  enable_bloom : Bool
  blur_pass_count : Nat
deriving DecidableEq, Repr

/-- Result of the generator: final builder trace, the swapchain image's
resource id, and `previous_pass_color` as passed to `write_external_image`. -/
structure GraphGenResult where
  graph : BuilderTrace
  swapchain_image_id : Nat
  previous_pass_color : Nat
deriving DecidableEq, Repr

/-- `ModernPipelineRenderGraphGenerator::generate_render_graph`, embedded as
the sequence of builder operations it performs (`graph_generator/mod.rs`
lines 131–277). -/
def generate_render_graph (config : GraphGenConfig) : GraphGenResult :=
  let g0 := BuilderTrace.emptyTrace
  let p1 := add_external_image g0 .PRESENT .PRESENT
  let swapchain_image_id := p1.1
  let p2 := model_pass p1.2
  let p3 := add_external_buffer p2.2 .UNORDERED_ACCESS .UNORDERED_ACCESS
  let p4 := add_external_buffer p3.2 .UNORDERED_ACCESS .UNORDERED_ACCESS
  let p5 := model_pass p4.2
  let p6 := model_pass p5.2
  let p7 := model_pass p6.2
  let p8 := model_pass p7.2
  let p9 := model_pass p8.2
  let opaque_pass_color := p9.1
  let ph :=
    if config.enable_hdr then
      let pa := model_pass p9.2
      let bloom_extract_hdr := pa.1
      let pb := model_pass pa.2
      let pc := model_pass pb.2
      let pd :=
        if config.enable_bloom && decide (config.blur_pass_count > 0) then
          model_pass pc.2
        else
          (bloom_extract_hdr, pc.2)
      let pe := model_pass pd.2
      pe
    else
      (opaque_pass_color, p9.2)
  let p11 := model_pass ph.2
  let p12 := model_pass p11.2
  let previous_pass_color := p12.1
  let g13 : BuilderTrace :=
    ⟨p12.2.next_id,
      p12.2.ops ++ [.writeExternalImage swapchain_image_id previous_pass_color]⟩
  ⟨g13, swapchain_image_id, previous_pass_color⟩

/-- Recognizes `write_external_image` operations in a builder trace. -/
def is_write_external_image : BuilderOp → Bool
  | .writeExternalImage _ _ => true
  | _ => false

/-- Recognizes `add_external_image` registrations of a given resource id. -/
def is_external_image_reg (id : Nat) : BuilderOp → Bool
  | .addExternalImage i _ _ => i == id
  | _ => false

/-- C7: the swapchain image is registered as an external image exactly once,
with entry state PRESENT and exit state PRESENT, and `write_external_image`
is called exactly once, on the swapchain image's resource id, wiring the
final (ui) pass's color output into it. -/
theorem C7_swapchain_wiring (config : GraphGenConfig) :
    (generate_render_graph config).graph.ops.filter
        (is_external_image_reg (generate_render_graph config).swapchain_image_id) =
      [.addExternalImage (generate_render_graph config).swapchain_image_id
        .PRESENT .PRESENT] ∧
    (generate_render_graph config).graph.ops.filter is_write_external_image =
      [.writeExternalImage (generate_render_graph config).swapchain_image_id
        (generate_render_graph config).previous_pass_color] := by
  rcases config with ⟨hdr, bloom, blur⟩
  cases hdr <;> cases bloom
  · exact ⟨rfl, rfl⟩
  · exact ⟨rfl, rfl⟩
  · exact ⟨rfl, rfl⟩
  · by_cases hb : blur > 0
    · simp only [generate_render_graph, hb, decide_True, Bool.and_true, if_true]
      exact ⟨rfl, rfl⟩
    · simp only [generate_render_graph, hb, decide_False, Bool.and_false, if_false]
      exact ⟨rfl, rfl⟩

/-! ## Render-graph compiler, modelled from the spec (§3, §4.1–§4.4)

The compiler itself (builder validation, scheduler, lifetime/aliasing
allocator, barrier synthesizer) is not among the excerpted sources — only
its clients are.  The definitions below are therefore modelled from the
specification text, as the claims' authority for these components. -/

/-- Modelled from the spec (§3 LogicalNode): access kinds of a usage. -/
inductive AccessKind where
  | read
  | write
  | readWrite
deriving DecidableEq, Repr

/-- Modelled from the spec (§3 LogicalNode): one resource usage — resource
id, access kind, required state (the pipeline stage / layout is folded into
the abstract required state value). -/
structure ResourceUsage where
  resource : Nat
  access : AccessKind
  state : Nat
deriving DecidableEq, Repr

/-- The usage has a write component. -/
def usage_writes (u : ResourceUsage) : Bool :=
  match u.access with
  | .write => true
  | .readWrite => true
  | .read => false

/-- The usage has a read component. -/
def usage_reads (u : ResourceUsage) : Bool :=
  match u.access with
  | .read => true
  | .readWrite => true
  | .write => false

/-- Modelled from the spec (§3): a logical node, its ordered resource usages. -/
structure LogicalNode where
  usages : List ResourceUsage
deriving DecidableEq, Repr

/-- The node writes resource `r`. -/
def node_writes (n : LogicalNode) (r : Nat) : Bool :=
  n.usages.any fun u => u.resource == r && usage_writes u

/-- The node reads or writes resource `r`. -/
def node_touches (n : LogicalNode) (r : Nat) : Bool :=
  n.usages.any fun u => u.resource == r

/-- Modelled from the spec (§3 Edge): a derived dependency from node `a` to
node `b` exists when `b` reads or writes a resource that `a` writes
(distinct nodes, identified by their declaration indices). -/
def derivedEdge (nodes : List LogicalNode) (a b : Nat) : Bool :=
  a != b &&
    match nodes[a]?, nodes[b]? with
    | some na, some nb =>
        na.usages.any fun u => usage_writes u && node_touches nb u.resource
    | _, _ => false

theorem derivedEdge_lt {nodes : List LogicalNode} {a b : Nat}
    (h : derivedEdge nodes a b = true) : a < nodes.length ∧ b < nodes.length := by
  rw [derivedEdge, Bool.and_eq_true] at h
  rcases h with ⟨-, h⟩
  cases ha : nodes[a]? with
  | none => rw [ha] at h; cases hb : nodes[b]? <;> rw [hb] at h <;> simp at h
  | some na =>
      cases hb : nodes[b]? with
      | none => rw [ha, hb] at h; simp at h
      | some nb =>
          constructor
          · by_contra hlt
            rw [List.getElem?_eq_none (Nat.le_of_not_lt hlt)] at ha
            cases ha
          · by_contra hlt
            rw [List.getElem?_eq_none (Nat.le_of_not_lt hlt)] at hb
            cases hb

/-- Modelled from the spec (§4.2): `b` is ready — every node with a derived
edge into `b` is already scheduled. -/
def predsScheduled (nodes : List LogicalNode) (scheduled : List Nat) (b : Nat) : Bool :=
  (List.range nodes.length).all fun a => !derivedEdge nodes a b || scheduled.contains a

/-- Modelled from the spec (§4.2 tie-break): the first ready node in
declaration order among the remaining ones. -/
def pickReady (nodes : List LogicalNode) (scheduled remaining : List Nat) : Option Nat :=
  remaining.find? (predsScheduled nodes scheduled)

/-- Modelled from the spec (§7): the build-time error taxonomy
(`GraphDeclarationError`). -/
inductive GraphDeclarationError where
  | unknownResource (r : Nat)
  | ambiguousWriteOrder (r : Nat)
  | cyclicDependency
deriving DecidableEq, Repr

/-- Modelled from the spec (§4.2): Kahn's topological sort, one scheduled
node per fuel step; failure to find a ready node is a cycle. -/
def kahnAux (nodes : List LogicalNode) :
    Nat → List Nat → List Nat → Except GraphDeclarationError (List Nat)
  | 0, scheduled, remaining =>
      if remaining.isEmpty then .ok scheduled else .error .cyclicDependency
  | fuel + 1, scheduled, remaining =>
      match pickReady nodes scheduled remaining with
      | some n => kahnAux nodes fuel (scheduled ++ [n]) (remaining.erase n)
      | none =>
          if remaining.isEmpty then .ok scheduled else .error .cyclicDependency

/-- Modelled from the spec (§4.2): the scheduler over a node list. -/
def kahnSchedule (nodes : List LogicalNode) : Except GraphDeclarationError (List Nat) :=
  kahnAux nodes nodes.length [] (List.range nodes.length)

/-- The schedule prefix is topologically consistent: every scheduled node's
predecessors appear strictly earlier in it. -/
def TopoPrefix (nodes : List LogicalNode) (sched : List Nat) : Prop :=
  ∀ (j b : Nat), sched[j]? = some b → ∀ a, derivedEdge nodes a b = true →
    ∃ i : Nat, i < j ∧ sched[i]? = some a

/-- Every node index below `n` is either scheduled or remaining. -/
def Covers (n : Nat) (sched remaining : List Nat) : Prop :=
  ∀ x, x < n → x ∈ sched ∨ x ∈ remaining

theorem topoPrefix_push {nodes : List LogicalNode} {sched : List Nat} {n : Nat}
    (hp : TopoPrefix nodes sched)
    (hready : predsScheduled nodes sched n = true) :
    TopoPrefix nodes (sched ++ [n]) := by
  intro j b hj a hedge
  by_cases hjl : j < sched.length
  · rw [List.getElem?_append, if_pos hjl] at hj
    obtain ⟨i, hi, hival⟩ := hp j b hj a hedge
    refine ⟨i, hi, ?_⟩
    rw [List.getElem?_append, if_pos (Nat.lt_trans hi hjl)]
    exact hival
  · have hlen : sched.length ≤ j := Nat.le_of_not_lt hjl
    rw [List.getElem?_append_right hlen] at hj
    have hj0 : j - sched.length = 0 := by
      by_contra hne
      have hgt : ([n] : List Nat).length ≤ j - sched.length := by
        simp only [List.length_singleton]
        omega
      rw [List.getElem?_eq_none hgt] at hj
      cases hj
    rw [hj0] at hj
    have hbn : n = b := by simpa using hj
    subst hbn
    have halt : a < nodes.length := (derivedEdge_lt hedge).1
    have hcond := (List.all_eq_true.mp hready) a (List.mem_range.mpr halt)
    rw [Bool.or_eq_true, Bool.not_eq_true'] at hcond
    have hmem : a ∈ sched := by
      rcases hcond with hfalse | hcont
      · rw [hedge] at hfalse; cases hfalse
      · exact List.mem_of_elem_eq_true hcont
    obtain ⟨i, hi⟩ := List.mem_iff_getElem?.mp hmem
    have hilt : i < sched.length := by
      by_contra hge
      rw [List.getElem?_eq_none (Nat.le_of_not_lt hge)] at hi
      cases hi
    refine ⟨i, Nat.lt_of_lt_of_le hilt hlen, ?_⟩
    rw [List.getElem?_append, if_pos hilt]
    exact hi

theorem covers_step {n nd : Nat} {sched remaining : List Nat}
    (hc : Covers n sched remaining) :
    Covers n (sched ++ [nd]) (remaining.erase nd) := by
  intro x hx
  rcases hc x hx with hs | hr
  · exact Or.inl (List.mem_append_left _ hs)
  · by_cases hxn : x = nd
    · subst hxn
      exact Or.inl (List.mem_append_right _ (List.mem_singleton.mpr rfl))
    · exact Or.inr ((List.mem_erase_of_ne hxn).mpr hr)

theorem kahnAux_invariant (nodes : List LogicalNode) :
    ∀ (fuel : Nat) (sched remaining order : List Nat),
      kahnAux nodes fuel sched remaining = .ok order →
      TopoPrefix nodes sched → Covers nodes.length sched remaining →
      TopoPrefix nodes order ∧ Covers nodes.length order []
  | 0, sched, remaining, order, hok, hp, hc => by
      rw [kahnAux] at hok
      by_cases hre : remaining.isEmpty
      · rw [if_pos hre] at hok
        injection hok with hok
        subst hok
        refine ⟨hp, fun x hx => ?_⟩
        rcases hc x hx with hs | hr
        · exact Or.inl hs
        · rw [List.isEmpty_iff] at hre
          rw [hre] at hr
          cases hr
      · rw [if_neg hre] at hok
        cases hok
  | fuel + 1, sched, remaining, order, hok, hp, hc => by
      rw [kahnAux] at hok
      cases hpick : pickReady nodes sched remaining with
      | some nd =>
          rw [hpick] at hok
          have hready : predsScheduled nodes sched nd = true := by
            rw [pickReady] at hpick
            exact List.find?_some hpick
          exact kahnAux_invariant nodes fuel _ _ order hok
            (topoPrefix_push hp hready) (covers_step hc)
      | none =>
          rw [hpick] at hok
          by_cases hre : remaining.isEmpty
          · rw [if_pos hre] at hok
            injection hok with hok
            subst hok
            refine ⟨hp, fun x hx => ?_⟩
            rcases hc x hx with hs | hr
            · exact Or.inl hs
            · rw [List.isEmpty_iff] at hre
              rw [hre] at hr
              cases hr
          · rw [if_neg hre] at hok
            cases hok

/-- C1: for every valid graph (one the scheduler accepts), the scheduler's
output is a topological order over the derived write→read/write edges: for
every derived edge A→B, A appears strictly before B in the scheduled order. -/
theorem C1_scheduler_topological (nodes : List LogicalNode) (order : List Nat)
    (a b : Nat) (hok : kahnSchedule nodes = .ok order)
    (hedge : derivedEdge nodes a b = true) :
    ∃ i j : Nat, i < j ∧ order[i]? = some a ∧ order[j]? = some b := by
  rw [kahnSchedule] at hok
  obtain ⟨htopo, hcov⟩ :=
    kahnAux_invariant nodes nodes.length [] (List.range nodes.length) order hok
      (fun j c hj => by rw [List.getElem?_nil] at hj; cases hj)
      (fun x hx => Or.inr (List.mem_range.mpr hx))
  have hblt := (derivedEdge_lt hedge).2
  have hbmem : b ∈ order := by
    rcases hcov b hblt with h | h
    · exact h
    · cases h
  obtain ⟨j, hj⟩ := List.mem_iff_getElem?.mp hbmem
  obtain ⟨i, hij, hi⟩ := htopo j b hj a hedge
  exact ⟨i, j, hij, hi, hj⟩

/-- A two-node graph: node 0 writes resource 0, node 1 reads it. -/
def sampleNodes : List LogicalNode :=
  [⟨[⟨0, .write, 1⟩]⟩, ⟨[⟨0, .read, 1⟩]⟩]

/-- Witness for C1 on `sampleNodes`. -/
theorem C1_scheduler_topological_witness :
    kahnSchedule sampleNodes = .ok [0, 1] ∧
    derivedEdge sampleNodes 0 1 = true ∧
    ∃ i j : Nat, i < j ∧ ([0, 1] : List Nat)[i]? = some 0 ∧ ([0, 1] : List Nat)[j]? = some 1 :=
  ⟨rfl, rfl, C1_scheduler_topological sampleNodes [0, 1] 0 1 rfl rfl⟩

theorem pickReady_least {nodes : List LogicalNode} {sched : List Nat} :
    ∀ {remaining : List Nat} {n : Nat},
      remaining.Pairwise (fun x y => x ≤ y) →
      pickReady nodes sched remaining = some n →
      n ∈ remaining ∧ predsScheduled nodes sched n = true ∧
        ∀ m ∈ remaining, predsScheduled nodes sched m = true → n ≤ m := by
  intro remaining
  induction remaining with
  | nil =>
      intro n hs hp
      simp [pickReady] at hp
  | cons hd tl ih =>
      intro n hs hp
      rw [pickReady] at hp
      cases hph : predsScheduled nodes sched hd with
      | true =>
          rw [List.find?_cons_of_pos _ hph] at hp
          injection hp with hp
          subst hp
          refine ⟨List.mem_cons_self _ _, hph, ?_⟩
          intro m hm _
          rcases List.mem_cons.mp hm with rfl | hmtl
          · exact Nat.le_refl _
          · exact (List.pairwise_cons.mp hs).1 m hmtl
      | false =>
          rw [List.find?_cons_of_neg _ (by simp [hph])] at hp
          have hres := ih (List.pairwise_cons.mp hs).2 (by rw [pickReady]; exact hp)
          refine ⟨List.mem_cons_of_mem _ hres.1, hres.2.1, ?_⟩
          intro m hm hmready
          rcases List.mem_cons.mp hm with rfl | hmtl
          · rw [hph] at hmready; cases hmready
          · exact hres.2.2 m hmtl hmready

/-! ### Builder API (modelled from the spec, §4.1) -/

/-- A logical resource registered by the builder. -/
structure ResourceInfo where
  shape : Nat
  usage_flags : Nat
  external : Bool
  entry_state : Nat
  exit_state : Nat
deriving DecidableEq, Repr

/-- The immutable graph description the builder produces. -/
structure GraphDescription where
  resources : List ResourceInfo
  nodes : List LogicalNode
deriving DecidableEq, Repr

/-- Modelled from the spec (§4.1): one builder declaration, in client order.
Images and buffers are collapsed into one transient-create declaration (the
kind may be encoded in the shape value). -/
inductive GraphDecl where
  | createImage (shape usage_flags : Nat)
  | addExternalImage (entry_state exit_state : Nat)
  | addNode (usages : List ResourceUsage)
deriving DecidableEq, Repr

/-- Modelled from the spec (§4.1): process one usage against the
written-without-intervening-read flags.  A write to a resource already
finally written is the ambiguous-order error; a read (including the read
component of a read-write) clears the flag; a write sets it. -/
def procUsage (flags : Nat → Bool) (u : ResourceUsage) :
    Except GraphDeclarationError (Nat → Bool) :=
  match u.access with
  | .read => .ok (fun r => if r = u.resource then false else flags r)
  | .write =>
      if flags u.resource then .error (.ambiguousWriteOrder u.resource)
      else .ok (fun r => if r = u.resource then true else flags r)
  | .readWrite => .ok (fun r => if r = u.resource then true else flags r)

/-- Process a node's usages in declaration order. -/
def procUsages (flags : Nat → Bool) :
    List ResourceUsage → Except GraphDeclarationError (Nat → Bool)
  | [] => .ok flags
  | u :: rest =>
    match procUsage flags u with
    | .ok flags' => procUsages flags' rest
    | .error e => .error e

/-- Builder state: registered resources and nodes, plus the per-resource
written-without-intervening-read flag. -/
structure BuildState where
  resources : List ResourceInfo
  nodes : List LogicalNode
  writtenNotRead : Nat → Bool

/-- Modelled from the spec (§4.1): run the declarations.  `add_node` fails if
a usage references an unknown ResourceId or if a write usage targets a
resource already finally written without an intervening read. -/
def buildAux : BuildState → List GraphDecl → Except GraphDeclarationError GraphDescription
  | st, [] => .ok ⟨st.resources, st.nodes⟩
  | st, .createImage shape uf :: rest =>
      buildAux ⟨st.resources ++ [⟨shape, uf, false, 0, 0⟩], st.nodes, st.writtenNotRead⟩ rest
  | st, .addExternalImage es xs :: rest =>
      buildAux ⟨st.resources ++ [⟨0, 0, true, es, xs⟩], st.nodes, st.writtenNotRead⟩ rest
  | st, .addNode usages :: rest =>
      match usages.find? (fun u => decide (st.resources.length ≤ u.resource)) with
      | some u => .error (.unknownResource u.resource)
      | none =>
          match procUsages st.writtenNotRead usages with
          | .ok flags' => buildAux ⟨st.resources, st.nodes ++ [⟨usages⟩], flags'⟩ rest
          | .error e => .error e

/-- Modelled from the spec (§4.1): the builder from the empty state. -/
def build (decls : List GraphDecl) : Except GraphDeclarationError GraphDescription :=
  buildAux ⟨[], [], fun _ => false⟩ decls

/-- The flattened stream of usages declared by the nodes in `decls`. -/
def usageStream : List GraphDecl → List ResourceUsage
  | [] => []
  | .addNode us :: rest => us ++ usageStream rest
  | .createImage _ _ :: rest => usageStream rest
  | .addExternalImage _ _ :: rest => usageStream rest

/-- Every node usage references a resource declared before it (`n` counts the
resources declared so far). -/
def declsWellScoped : Nat → List GraphDecl → Bool
  | _, [] => true
  | n, .createImage _ _ :: rest => declsWellScoped (n + 1) rest
  | n, .addExternalImage _ _ :: rest => declsWellScoped (n + 1) rest
  | n, .addNode us :: rest =>
      us.all (fun u => decide (u.resource < n)) && declsWellScoped n rest

/-- The declared usage stream contains two pure writes to `r` with no usage
reading `r` between them. -/
def UnreadDoubleWrite (r : Nat) (s : List ResourceUsage) : Prop :=
  ∃ s₁ s₂ s₃ u₁ u₂, s = s₁ ++ u₁ :: (s₂ ++ u₂ :: s₃) ∧
    u₁.resource = r ∧ u₁.access = .write ∧
    u₂.resource = r ∧ u₂.access = .write ∧
    ∀ u ∈ s₂, u.resource = r → usage_reads u = false

theorem procUsages_append (xs : List ResourceUsage) :
    ∀ (flags : Nat → Bool) (ys : List ResourceUsage),
      procUsages flags (xs ++ ys) =
        match procUsages flags xs with
        | .ok f => procUsages f ys
        | .error e => .error e := by
  induction xs with
  | nil => intro flags ys; rfl
  | cons u rest ih =>
      intro flags ys
      simp only [List.cons_append, procUsages]
      cases procUsage flags u with
      | ok f => exact ih f ys
      | error e => rfl

theorem procUsage_error {flags : Nat → Bool} {u : ResourceUsage}
    {e : GraphDeclarationError} (h : procUsage flags u = .error e) :
    e = .ambiguousWriteOrder u.resource := by
  rw [procUsage] at h
  cases hacc : u.access <;> rw [hacc] at h
  · cases h
  · by_cases hf : flags u.resource = true
    · rw [if_pos hf] at h
      injection h with h
      exact h.symm
    · rw [if_neg hf] at h
      cases h
  · cases h

theorem procUsages_error : ∀ (s : List ResourceUsage) (flags : Nat → Bool)
    (e : GraphDeclarationError), procUsages flags s = .error e →
    ∃ r', e = .ambiguousWriteOrder r'
  | [], _, _, h => by cases h
  | u :: rest, flags, e, h => by
      rw [procUsages] at h
      cases hu : procUsage flags u with
      | ok f =>
          rw [hu] at h
          exact procUsages_error rest f e h
      | error e' =>
          rw [hu] at h
          injection h with h
          subst h
          exact ⟨u.resource, procUsage_error hu⟩

theorem procUsage_ok_other {flags flags' : Nat → Bool} {u : ResourceUsage} {x : Nat}
    (h : procUsage flags u = .ok flags') (hx : x ≠ u.resource) :
    flags' x = flags x := by
  rw [procUsage] at h
  cases hacc : u.access <;> rw [hacc] at h
  · injection h with h
    rw [← h]
    simp [if_neg hx]
  · by_cases hf : flags u.resource = true
    · rw [if_pos hf] at h; cases h
    · rw [if_neg hf] at h
      injection h with h
      rw [← h]
      simp [if_neg hx]
  · injection h with h
    rw [← h]
    simp [if_neg hx]

theorem procUsage_write_ok {flags flags' : Nat → Bool} {u : ResourceUsage}
    (hw : u.access = .write) (h : procUsage flags u = .ok flags') :
    flags' u.resource = true := by
  rw [procUsage, hw] at h
  by_cases hf : flags u.resource = true
  · rw [if_pos hf] at h; cases h
  · rw [if_neg hf] at h
    injection h with h
    rw [← h]
    simp

theorem procUsages_write_after_write {r : Nat} :
    ∀ (s₂ : List ResourceUsage) (flags : Nat → Bool) (u₂ : ResourceUsage)
      (s₃ : List ResourceUsage),
      flags r = true →
      (∀ u ∈ s₂, u.resource = r → usage_reads u = false) →
      u₂.resource = r → u₂.access = .write →
      ∃ e, procUsages flags (s₂ ++ u₂ :: s₃) = .error e
  | [], flags, u₂, s₃, hf, _, h2r, h2w => by
      refine ⟨.ambiguousWriteOrder u₂.resource, ?_⟩
      simp only [List.nil_append, procUsages, procUsage, h2w]
      rw [h2r, if_pos hf]
  | u :: s₂', flags, u₂, s₃, hf, hnr, h2r, h2w => by
      simp only [List.cons_append, procUsages]
      cases hu : procUsage flags u with
      | error e => exact ⟨e, rfl⟩
      | ok f' =>
          have hf' : f' r = true := by
            by_cases hur : u.resource = r
            · have hread : usage_reads u = false :=
                hnr u (List.mem_cons_self _ _) hur
              cases hacc : u.access with
              | read => rw [usage_reads, hacc] at hread; cases hread
              | readWrite => rw [usage_reads, hacc] at hread; cases hread
              | write =>
                  rw [procUsage, hacc, hur, if_pos hf] at hu
                  cases hu
            · rw [procUsage_ok_other hu (fun he => hur he.symm)]
              exact hf
          exact procUsages_write_after_write s₂' f' u₂ s₃ hf'
            (fun v hv => hnr v (List.mem_cons_of_mem _ hv)) h2r h2w

theorem buildAux_error_of_procUsages :
    ∀ (decls : List GraphDecl) (st : BuildState) (e : GraphDeclarationError),
      declsWellScoped st.resources.length decls = true →
      procUsages st.writtenNotRead (usageStream decls) = .error e →
      buildAux st decls = .error e
  | [], _, _, _, hproc => by cases hproc
  | .createImage shape uf :: rest, st, e, hscope, hproc => by
      rw [declsWellScoped] at hscope
      rw [buildAux]
      refine buildAux_error_of_procUsages rest _ e ?_ hproc
      simpa using hscope
  | .addExternalImage es xs :: rest, st, e, hscope, hproc => by
      rw [declsWellScoped] at hscope
      rw [buildAux]
      refine buildAux_error_of_procUsages rest _ e ?_ hproc
      simpa using hscope
  | .addNode us :: rest, st, e, hscope, hproc => by
      rw [declsWellScoped, Bool.and_eq_true] at hscope
      rw [buildAux]
      have hfind : us.find? (fun u => decide (st.resources.length ≤ u.resource)) = none := by
        rw [List.find?_eq_none]
        intro u hu
        have := (List.all_eq_true.mp hscope.1) u hu
        simp only [decide_eq_true_eq] at this ⊢
        omega
      rw [hfind]
      rw [usageStream] at hproc
      rw [procUsages_append us st.writtenNotRead (usageStream rest)] at hproc
      cases hus : procUsages st.writtenNotRead us with
      | error e' =>
          rw [hus] at hproc
          have he' : e' = e := by simpa using hproc
          subst he'
          rfl
      | ok f' =>
          rw [hus] at hproc
          exact buildAux_error_of_procUsages rest ⟨st.resources, st.nodes ++ [⟨us⟩], f'⟩ e
            hscope.2 (by simpa using hproc)

theorem build_error_of_double_write {decls : List GraphDecl} {r : Nat}
    (hscope : declsWellScoped 0 decls = true)
    (hdw : UnreadDoubleWrite r (usageStream decls)) :
    ∃ r', build decls = .error (.ambiguousWriteOrder r') := by
  obtain ⟨s₁, s₂, s₃, u₁, u₂, hsplit, h1r, h1w, h2r, h2w, hnoread⟩ := hdw
  have hstream : ∃ e, procUsages (fun _ => false) (usageStream decls) = .error e := by
    rw [hsplit, procUsages_append]
    cases hp1 : procUsages (fun _ => false) s₁ with
    | error e => exact ⟨e, rfl⟩
    | ok f1 =>
        simp only [procUsages]
        cases hpu : procUsage f1 u₁ with
        | error e => exact ⟨e, rfl⟩
        | ok f2 =>
            have hf2 : f2 r = true := by
              rw [← h1r]
              exact procUsage_write_ok h1w hpu
            exact procUsages_write_after_write s₂ f2 u₂ s₃ hf2 hnoread h2r h2w
  obtain ⟨e, he⟩ := hstream
  obtain ⟨r', hr'⟩ := procUsages_error _ _ _ he
  subst hr'
  exact ⟨r', buildAux_error_of_procUsages decls ⟨[], [], fun _ => false⟩ _ hscope he⟩

/-! ### Lifetime & aliasing allocator (modelled from the spec, §4.3) -/

/-- A lifetime interval in scheduled order. -/
structure Lifetime where
  firstUse : Nat
  lastUse : Nat
deriving DecidableEq, Repr

/-- Positions in scheduled order of nodes touching resource `r`. -/
def touchPositions (nodes : List LogicalNode) (order : List Nat) (r : Nat) : List Nat :=
  (List.range order.length).filter fun i =>
    match order[i]? with
    | some nid =>
        match nodes[nid]? with
        | some n => node_touches n r
        | none => false
    | none => false

/-- Modelled from the spec (§4.3): `[index of first node touching it, index
of last node touching it]` in scheduled order; `none` when never touched. -/
def resourceLifetime (nodes : List LogicalNode) (order : List Nat) (r : Nat) :
    Option Lifetime :=
  match touchPositions nodes order r with
  | [] => none
  | p :: ps => some ⟨p, (p :: ps).getLast (List.cons_ne_nil p ps)⟩

/-- A transient resource as seen by the allocator. -/
structure AllocRequest where
  resource : Nat
  shape : Nat
  usage_flags : Nat
  life : Lifetime
deriving DecidableEq, Repr

/-- One physical slot: its creation shape, usage flags, and the logical
resources placed into it with their intervals. -/
structure PhysSlot where
  shape : Nat
  usage_flags : Nat
  occupants : List (Nat × Lifetime)
deriving DecidableEq, Repr

/-- The two intervals do not overlap. -/
def lifeDisjoint (a b : Lifetime) : Prop :=
  a.lastUse < b.firstUse ∨ b.lastUse < a.firstUse

/-- Modelled from the spec (§4.3): shape-compatibility — same shape value and
the slot's usage flags are a superset of the required ones. -/
def slotCompatible (s : PhysSlot) (req : AllocRequest) : Bool :=
  s.shape == req.shape && req.usage_flags &&& s.usage_flags == req.usage_flags

/-- Every interval already placed in the slot ends strictly before `start`. -/
def slotFreeBefore (s : PhysSlot) (start : Nat) : Bool :=
  s.occupants.all fun occ => decide (occ.2.lastUse < start)

/-- Modelled from the spec (§4.3): place one request into the lowest-indexed
compatible slot whose previous occupants' intervals ended strictly before the
request's interval starts; otherwise allocate a new physical slot. -/
def assignReq : List PhysSlot → AllocRequest → List PhysSlot
  | [], req => [⟨req.shape, req.usage_flags, [(req.resource, req.life)]⟩]
  | s :: rest, req =>
    if slotCompatible s req && slotFreeBefore s req.life.firstUse then
      ⟨s.shape, s.usage_flags, s.occupants ++ [(req.resource, req.life)]⟩ :: rest
    else
      s :: assignReq rest req

/-- Insert a request into a start-sorted list, keeping declaration order
among equal starts. -/
def insertByStart (req : AllocRequest) : List AllocRequest → List AllocRequest
  | [] => [req]
  | x :: xs =>
    if req.life.firstUse < x.life.firstUse then req :: x :: xs
    else x :: insertByStart req xs

/-- Modelled from the spec (§4.3): requests are processed in increasing order
of interval start (stable in declaration order). -/
def sortByStart (reqs : List AllocRequest) : List AllocRequest :=
  reqs.foldl (fun acc x => insertByStart x acc) []

/-- Greedy allocation over the requests in processing order. -/
def allocateSlots (reqs : List AllocRequest) : List PhysSlot :=
  (sortByStart reqs).foldl assignReq []

/-- The invariant of claim C2: a slot's occupants have pairwise disjoint
lifetime intervals. -/
def slotOccupantsDisjoint (s : PhysSlot) : Prop :=
  s.occupants.Pairwise fun a b => lifeDisjoint a.2 b.2

theorem assignReq_disjoint :
    ∀ (slots : List PhysSlot) (req : AllocRequest),
      (∀ s ∈ slots, slotOccupantsDisjoint s) →
      ∀ s ∈ assignReq slots req, slotOccupantsDisjoint s
  | [], req, _ => by
      intro s hs
      rw [assignReq] at hs
      rcases List.mem_singleton.mp hs with rfl
      exact List.pairwise_singleton _ _
  | slot :: rest, req, hall => by
      intro s hs
      rw [assignReq] at hs
      by_cases hcond : (slotCompatible slot req && slotFreeBefore slot req.life.firstUse) = true
      · rw [if_pos hcond] at hs
        rcases List.mem_cons.mp hs with rfl | hmem
        · have hfree : slotFreeBefore slot req.life.firstUse = true :=
            (by simpa using hcond : _ ∧ _).2
          have hold := hall slot (List.mem_cons_self _ _)
          rw [slotOccupantsDisjoint]
          refine List.pairwise_append.mpr ⟨hold, List.pairwise_singleton _ _, ?_⟩
          intro a ha b hb
          rcases List.mem_singleton.mp hb with rfl
          left
          have := (List.all_eq_true.mp hfree) a ha
          simpa using this
        · exact hall s (List.mem_cons_of_mem _ hmem)
      · rw [if_neg hcond] at hs
        rcases List.mem_cons.mp hs with rfl | hmem
        · exact hall s (List.mem_cons_self _ _)
        · exact assignReq_disjoint rest req
            (fun t ht => hall t (List.mem_cons_of_mem _ ht)) s hmem

theorem foldl_assign_disjoint :
    ∀ (reqs : List AllocRequest) (acc : List PhysSlot),
      (∀ s ∈ acc, slotOccupantsDisjoint s) →
      ∀ s ∈ reqs.foldl assignReq acc, slotOccupantsDisjoint s
  | [], _, hacc => hacc
  | req :: rest, acc, hacc => by
      rw [List.foldl_cons]
      exact foldl_assign_disjoint rest _ (assignReq_disjoint acc req hacc)

theorem allocateSlots_disjoint (reqs : List AllocRequest) :
    ∀ s ∈ allocateSlots reqs, slotOccupantsDisjoint s :=
  foldl_assign_disjoint (sortByStart reqs) [] (fun _ hs => absurd hs (List.not_mem_nil _))

/-! ### Barrier synthesizer (modelled from the spec, §4.4) -/

/-- A physical resource identity: external resources are pinned 1:1, never
aliased; transient resources live in allocator slots. -/
inductive PhysId where
  | externalRes (r : Nat)
  | slot (i : Nat)
deriving DecidableEq, Repr

/-- Modelled from the spec (§4.4): the last-known state of a physical
resource — the access kind of the last access (`none` while an external
resource still sits untouched in its entry state) and the abstract state
value (pipeline stage / layout folded in). -/
structure LastState where
  access : Option AccessKind
  state : Nat
deriving DecidableEq, Repr

/-- A synchronization barrier transitioning a physical resource. -/
structure Barrier where
  resource : PhysId
  fromState : Nat
  toState : Nat
deriving DecidableEq, Repr

/-- Modelled from the spec (§3, §4.4): the access is incompatible with the
state the previous access left the resource in — the required state differs,
or it is a write following any prior read/write access (hazard). -/
def incompatibleWith (last : Option LastState) (u : ResourceUsage) : Bool :=
  match last with
  | none => false
  | some ls => ls.state != u.state || (usage_writes u && ls.access.isSome)

/-- The physical identity of logical resource `r`: externals pinned 1:1,
transients mapped to the allocator slot holding them. -/
def physOf (desc : GraphDescription) (slots : List PhysSlot) (r : Nat) : Option PhysId :=
  match desc.resources[r]? with
  | some info =>
      if info.external then some (.externalRes r)
      else
        match slots.findIdx? (fun s => s.occupants.any (fun occ => occ.1 == r)) with
        | some i => some (.slot i)
        | none => none
  | none => none

/-- Modelled from the spec (§4.4): process one usage — emit a barrier exactly
when the usage is incompatible with the tracked last state of its physical
resource, then update that state to the usage's access and required state. -/
def synthUsage (phys : Nat → Option PhysId) (st : PhysId → Option LastState)
    (u : ResourceUsage) : Option Barrier × (PhysId → Option LastState) :=
  match phys u.resource with
  | none => (none, st)
  | some pid =>
      (if incompatibleWith (st pid) u then
        some ⟨pid,
          (match st pid with
           | some ls => ls.state
           | none => u.state), u.state⟩
      else none,
      fun p => if p = pid then some ⟨some u.access, u.state⟩ else st p)

/-- Process a node's usages in declaration order. -/
def synthUsages (phys : Nat → Option PhysId) :
    (PhysId → Option LastState) → List ResourceUsage →
      List (ResourceUsage × Option Barrier) × (PhysId → Option LastState)
  | st, [] => ([], st)
  | st, u :: rest =>
    let pb := synthUsage phys st u
    let prest := synthUsages phys pb.2 rest
    ((u, pb.1) :: prest.1, prest.2)

/-- One entry of the compiled plan: a node with its accesses and the barrier
(if any) inserted before each access. -/
structure PlanEntry where
  node : Nat
  accesses : List (ResourceUsage × Option Barrier)
deriving DecidableEq, Repr

/-- Process the scheduled nodes in order. -/
def synthNodes (nodes : List LogicalNode) (phys : Nat → Option PhysId) :
    (PhysId → Option LastState) → List Nat →
      List PlanEntry × (PhysId → Option LastState)
  | st, [] => ([], st)
  | st, nid :: rest =>
    let usages :=
      match nodes[nid]? with
      | some n => n.usages
      | none => []
    let pu := synthUsages phys st usages
    let prest := synthNodes nodes phys pu.2 rest
    (⟨nid, pu.1⟩ :: prest.1, prest.2)

/-- Initial states: every external resource starts in its declared entry
state; transient slots carry no state until first touched. -/
def initStates (desc : GraphDescription) : PhysId → Option LastState
  | .externalRes r =>
      match desc.resources[r]? with
      | some info => if info.external then some ⟨none, info.entry_state⟩ else none
      | none => none
  | .slot _ => none

/-- Modelled from the spec (§4.4): the final transition barrier for resource
`r`, emitted when `r` is external and its last state differs from its
declared exit state. -/
def finalBarrierAt (desc : GraphDescription) (st : PhysId → Option LastState)
    (r : Nat) : Option Barrier :=
  match desc.resources[r]? with
  | some info =>
      if info.external then
        match st (.externalRes r) with
        | some ls =>
            if ls.state != info.exit_state then
              some ⟨.externalRes r, ls.state, info.exit_state⟩
            else none
        | none => none
      else none
  | none => none

/-- Modelled from the spec (§4.4): at the end of the plan, one final
transition barrier per external resource that needs one. -/
def finalBarriers (desc : GraphDescription) (st : PhysId → Option LastState) :
    List Barrier :=
  (List.range desc.resources.length).filterMap (finalBarrierAt desc st)

/-- The compiled execution plan: per-node accesses with their barriers, plus
the final external-exit transition barriers. -/
structure ExecutionPlan where
  entries : List PlanEntry
  finalBars : List Barrier
deriving DecidableEq, Repr

/-- Modelled from the spec (§4.4): the barrier synthesis pass over the
scheduled order. -/
def synthBarriers (desc : GraphDescription) (slots : List PhysSlot)
    (order : List Nat) : ExecutionPlan × (PhysId → Option LastState) :=
  let pr := synthNodes desc.nodes (physOf desc slots) (initStates desc) order
  (⟨pr.1, finalBarriers desc pr.2⟩, pr.2)

/-! ### Full compile pipeline and the compiled-graph record -/

/-- The transient allocation requests of a compiled graph: every non-external
resource that is touched by a scheduled node, with its lifetime interval. -/
def transientRequests (desc : GraphDescription) (order : List Nat) :
    List AllocRequest :=
  (List.range desc.resources.length).filterMap fun r =>
    match desc.resources[r]? with
    | some info =>
        if info.external then none
        else
          match resourceLifetime desc.nodes order r with
          | some life => some ⟨r, info.shape, info.usage_flags, life⟩
          | none => none
    | none => none

/-- The output of the compile pipeline. -/
structure CompiledGraph where
  description : GraphDescription
  order : List Nat
  slots : List PhysSlot
  plan : ExecutionPlan
deriving DecidableEq, Repr

/-- Modelled from the spec (§2 control flow): builder → scheduler → lifetime
allocator → barrier synthesizer → compiled plan. -/
def compileGraph (decls : List GraphDecl) : Except GraphDeclarationError CompiledGraph :=
  match build decls with
  | .error e => .error e
  | .ok desc =>
      match kahnSchedule desc.nodes with
      | .error e => .error e
      | .ok order =>
          let slots := allocateSlots (transientRequests desc order)
          let plan := (synthBarriers desc slots order).1
          .ok ⟨desc, order, slots, plan⟩

/-! ### The independent barrier checker for claim C3 -/

/-- The checker of claim C3: walk the plan, tracking each physical resource's
state; every access must carry a barrier exactly when it is incompatible with
the state left by the previous access to the same physical resource, and a
present barrier must transition that resource from that state to the access's
required state.  An access to a resource with no physical identity has no
physical state to check and is skipped. -/
def checkAccesses (phys : Nat → Option PhysId) :
    (PhysId → Option LastState) → List (ResourceUsage × Option Barrier) →
      Bool × (PhysId → Option LastState)
  | st, [] => (true, st)
  | st, (u, b) :: rest =>
    match phys u.resource with
    | none => checkAccesses phys st rest
    | some pid =>
        let ok :=
          match b with
          | some bar =>
              incompatibleWith (st pid) u && bar.resource == pid &&
                bar.toState == u.state &&
                (match st pid with
                 | some ls => bar.fromState == ls.state
                 | none => false)
          | none => !incompatibleWith (st pid) u
        let res := checkAccesses phys
          (fun p => if p = pid then some ⟨some u.access, u.state⟩ else st p) rest
        (ok && res.1, res.2)

/-- Run the checker over all plan entries. -/
def checkEntries (phys : Nat → Option PhysId) :
    (PhysId → Option LastState) → List PlanEntry →
      Bool × (PhysId → Option LastState)
  | st, [] => (true, st)
  | st, e :: rest =>
    let r1 := checkAccesses phys st e.accesses
    let r2 := checkEntries phys r1.2 rest
    (r1.1 && r2.1, r2.2)

theorem checkAccesses_synth (phys : Nat → Option PhysId) :
    ∀ (us : List ResourceUsage) (st : PhysId → Option LastState),
      checkAccesses phys st (synthUsages phys st us).1 =
        (true, (synthUsages phys st us).2)
  | [], _ => rfl
  | u :: rest, st => by
      cases hp : phys u.resource with
      | none =>
          have hsynth : synthUsage phys st u = (none, st) := by
            rw [synthUsage, hp]
          simp only [synthUsages, hsynth, checkAccesses, hp]
          exact checkAccesses_synth phys rest st
      | some pid =>
          cases hst : st pid with
          | none =>
              have hinc : incompatibleWith (st pid) u = false := by rw [hst]; rfl
              have hsynth : synthUsage phys st u =
                  (none, fun p => if p = pid then some ⟨some u.access, u.state⟩ else st p) := by
                simp [synthUsage, hp, hinc]
              simp only [synthUsages, hsynth, checkAccesses, hp, hinc]
              rw [checkAccesses_synth phys rest _]
              simp
          | some ls =>
              by_cases hinc : incompatibleWith (st pid) u = true
              · rw [hst] at hinc
                have hsynth : synthUsage phys st u =
                    (some ⟨pid, ls.state, u.state⟩,
                     fun p => if p = pid then some ⟨some u.access, u.state⟩ else st p) := by
                  simp [synthUsage, hp, hst, hinc]
                simp only [synthUsages, hsynth, checkAccesses, hp, hst, hinc]
                rw [checkAccesses_synth phys rest _]
                simp
              · rw [hst] at hinc
                have hincf : incompatibleWith (some ls) u = false :=
                  Bool.eq_false_iff.mpr hinc
                have hsynth : synthUsage phys st u =
                    (none, fun p => if p = pid then some ⟨some u.access, u.state⟩ else st p) := by
                  simp [synthUsage, hp, hst, hincf]
                simp only [synthUsages, hsynth, checkAccesses, hp, hst, hincf]
                rw [checkAccesses_synth phys rest _]
                simp

theorem checkEntries_synth (nodes : List LogicalNode) (phys : Nat → Option PhysId) :
    ∀ (order : List Nat) (st : PhysId → Option LastState),
      checkEntries phys st (synthNodes nodes phys st order).1 =
        (true, (synthNodes nodes phys st order).2)
  | [], _ => rfl
  | nid :: rest, st => by
      simp only [synthNodes, checkEntries]
      rw [checkAccesses_synth phys]
      rw [checkEntries_synth nodes phys rest]
      simp

theorem synthUsage_isSome (phys : Nat → Option PhysId)
    (st : PhysId → Option LastState) (u : ResourceUsage) (p : PhysId)
    (h : (st p).isSome = true) : (((synthUsage phys st u).2) p).isSome = true := by
  cases hp : phys u.resource with
  | none => simpa [synthUsage, hp] using h
  | some pid =>
      by_cases hpp : p = pid
      · subst hpp
        simp [synthUsage, hp]
      · simpa [synthUsage, hp, if_neg hpp] using h

theorem synthUsages_isSome (phys : Nat → Option PhysId) :
    ∀ (us : List ResourceUsage) (st : PhysId → Option LastState) (p : PhysId),
      (st p).isSome = true → (((synthUsages phys st us).2) p).isSome = true
  | [], _, _, h => h
  | u :: rest, st, p, h => by
      simp only [synthUsages]
      exact synthUsages_isSome phys rest _ p (synthUsage_isSome phys st u p h)

theorem synthNodes_isSome (nodes : List LogicalNode) (phys : Nat → Option PhysId) :
    ∀ (order : List Nat) (st : PhysId → Option LastState) (p : PhysId),
      (st p).isSome = true → (((synthNodes nodes phys st order).2) p).isSome = true
  | [], _, _, h => h
  | nid :: rest, st, p, h => by
      simp only [synthNodes]
      exact synthNodes_isSome nodes phys rest _ p (synthUsages_isSome phys _ st p h)

/-- Apply one barrier to the tracked states: the resource moves to the
barrier's target state. -/
def applyBarrier (st : PhysId → Option LastState) (b : Barrier) :
    PhysId → Option LastState :=
  fun p =>
    if p = b.resource then
      some ⟨(match st p with
             | some ls => ls.access
             | none => none), b.toState⟩
    else st p

/-- The abstract state value of a physical resource under the tracked states. -/
def stateValOf (st : PhysId → Option LastState) (p : PhysId) : Option Nat :=
  (st p).map fun ls => ls.state

/-- The tracked states at the very end of the plan: after all node accesses
and the final external-exit barriers. -/
def planEndState (phys : Nat → Option PhysId) (init : PhysId → Option LastState)
    (plan : ExecutionPlan) : PhysId → Option LastState :=
  plan.finalBars.foldl applyBarrier (checkEntries phys init plan.entries).2

theorem foldl_applyBarrier_not_mem :
    ∀ (bars : List Barrier) (st : PhysId → Option LastState) (p : PhysId),
      (∀ b ∈ bars, b.resource ≠ p) → (bars.foldl applyBarrier st) p = st p
  | [], _, _, _ => rfl
  | b :: rest, st, p, hall => by
      rw [List.foldl_cons]
      rw [foldl_applyBarrier_not_mem rest _ p
        (fun c hc => hall c (List.mem_cons_of_mem _ hc))]
      have hbp : b.resource ≠ p := hall b (List.mem_cons_self _ _)
      simp only [applyBarrier]
      rw [if_neg (fun he => hbp he.symm)]

theorem foldl_applyBarrier_single (l₁ : List Barrier) (b₀ : Barrier)
    (l₂ : List Barrier) (st : PhysId → Option LastState) (p : PhysId)
    (hb : b₀.resource = p) (h2 : ∀ b ∈ l₂, b.resource ≠ p) :
    stateValOf ((l₁ ++ b₀ :: l₂).foldl applyBarrier st) p = some b₀.toState := by
  rw [stateValOf, List.foldl_append, List.foldl_cons]
  rw [foldl_applyBarrier_not_mem l₂ _ p h2]
  simp only [applyBarrier]
  rw [if_pos hb.symm]
  simp

theorem finalBarrierAt_some {desc : GraphDescription}
    {st : PhysId → Option LastState} {x : Nat} {b : Barrier}
    (h : finalBarrierAt desc st x = some b) :
    ∃ info ls, desc.resources[x]? = some info ∧ info.external = true ∧
      st (.externalRes x) = some ls ∧ (ls.state != info.exit_state) = true ∧
      b = ⟨.externalRes x, ls.state, info.exit_state⟩ := by
  rw [finalBarrierAt] at h
  cases hr : desc.resources[x]? with
  | none => rw [hr] at h; cases h
  | some info =>
      simp only [hr] at h
      by_cases hext : info.external = true
      · rw [if_pos hext] at h
        cases hst : st (.externalRes x) with
        | none => simp only [hst] at h; cases h
        | some ls =>
            simp only [hst] at h
            by_cases hne : (ls.state != info.exit_state) = true
            · rw [if_pos hne] at h
              injection h with h
              exact ⟨info, ls, rfl, hext, rfl, hne, h.symm⟩
            · rw [if_neg hne] at h; cases h
      · rw [if_neg hext] at h; cases h

theorem finalBarriers_filter_le_one (desc : GraphDescription)
    (st : PhysId → Option LastState) (r : Nat) :
    ((finalBarriers desc st).filter
      fun b => b.resource == PhysId.externalRes r).length ≤ 1 := by
  rw [finalBarriers]
  have hres : ∀ x b, finalBarrierAt desc st x = some b →
      b.resource = PhysId.externalRes x := by
    intro x b h
    obtain ⟨info, ls, -, -, -, -, hb⟩ := finalBarrierAt_some h
    rw [hb]
  have hnd : (List.range desc.resources.length).Nodup := List.nodup_range _
  generalize (List.range desc.resources.length) = l at hnd ⊢
  induction l with
  | nil => simp
  | cons x xs ih =>
      rw [List.filterMap_cons]
      cases hf : finalBarrierAt desc st x with
      | none => exact ih (List.nodup_cons.mp hnd).2
      | some b =>
          rw [List.filter_cons]
          by_cases hbr : (b.resource == PhysId.externalRes r) = true
          · rw [if_pos hbr]
            have hx : x = r := by
              have hbx := hres x b hf
              rw [hbx] at hbr
              have : PhysId.externalRes x = PhysId.externalRes r := by
                simpa using hbr
              injection this
            subst hx
            have hnotin : x ∉ xs := (List.nodup_cons.mp hnd).1
            have hfilter : ((xs.filterMap (finalBarrierAt desc st)).filter
                fun c => c.resource == PhysId.externalRes x) = [] := by
              rw [List.filter_eq_nil_iff]
              intro c hc
              obtain ⟨y, hy, hfy⟩ := List.mem_filterMap.mp hc
              have hcy := hres y c hfy
              rw [hcy]
              simp only [beq_iff_eq]
              intro he
              injection he with he
              exact hnotin (he ▸ hy)
            rw [hfilter]
            simp
          · rw [if_neg hbr]
            exact ih (List.nodup_cons.mp hnd).2

theorem compileGraph_ok {decls : List GraphDecl} {cg : CompiledGraph}
    (hc : compileGraph decls = .ok cg) :
    ∃ desc order, build decls = .ok desc ∧ kahnSchedule desc.nodes = .ok order ∧
      cg = ⟨desc, order, allocateSlots (transientRequests desc order),
        (synthBarriers desc (allocateSlots (transientRequests desc order)) order).1⟩ := by
  rw [compileGraph] at hc
  cases hb : build decls with
  | error e => rw [hb] at hc; cases hc
  | ok desc =>
      simp only [hb] at hc
      cases hk : kahnSchedule desc.nodes with
      | error e => simp only [hk] at hc; cases hc
      | ok order =>
          simp only [hk] at hc
          injection hc with hc
          exact ⟨desc, order, rfl, hk, hc.symm⟩

theorem finalBarriers_end_state (desc : GraphDescription)
    (endSt : PhysId → Option LastState) (r : Nat) (info : ResourceInfo)
    (ls0 : LastState) (hr : desc.resources[r]? = some info)
    (hext : info.external = true)
    (hls0 : endSt (.externalRes r) = some ls0) :
    stateValOf ((finalBarriers desc endSt).foldl applyBarrier endSt)
      (.externalRes r) = some info.exit_state := by
  by_cases hexit : ls0.state = info.exit_state
  · have hnone : ∀ b ∈ finalBarriers desc endSt,
        b.resource ≠ PhysId.externalRes r := by
      intro b hbmem hbad
      obtain ⟨y, hy, hfy⟩ := List.mem_filterMap.mp hbmem
      obtain ⟨info', ls', hr', hext', hst', hne', hbval⟩ := finalBarrierAt_some hfy
      rw [hbval] at hbad
      have hyr : y = r := by injection hbad
      subst hyr
      rw [hr] at hr'
      injection hr' with hr'
      subst hr'
      rw [hls0] at hst'
      injection hst' with hst'
      subst hst'
      rw [hexit] at hne'
      simp at hne'
    rw [stateValOf, foldl_applyBarrier_not_mem _ _ (PhysId.externalRes r) hnone,
      hls0]
    simp [hexit]
  · have hrlt : r < desc.resources.length := by
      by_contra hge
      rw [List.getElem?_eq_none (Nat.le_of_not_lt hge)] at hr
      cases hr
    have hprod : finalBarrierAt desc endSt r =
        some ⟨.externalRes r, ls0.state, info.exit_state⟩ := by
      simp [finalBarrierAt, hr, hext, hls0, hexit]
    have hmem : (⟨.externalRes r, ls0.state, info.exit_state⟩ : Barrier) ∈
        finalBarriers desc endSt :=
      List.mem_filterMap.mpr ⟨r, List.mem_range.mpr hrlt, hprod⟩
    obtain ⟨l₁, l₂, hsplit⟩ := List.append_of_mem hmem
    have hfle := finalBarriers_filter_le_one desc endSt r
    have hl2 : ∀ b ∈ l₂, b.resource ≠ PhysId.externalRes r := by
      intro c hcmem hbad
      rw [hsplit, List.filter_append, List.filter_cons] at hfle
      have hb0pass : ((⟨.externalRes r, ls0.state,
          info.exit_state⟩ : Barrier).resource ==
          PhysId.externalRes r) = true := by simp
      rw [if_pos hb0pass] at hfle
      have hcfilter : c ∈ l₂.filter
          (fun b => b.resource == PhysId.externalRes r) :=
        List.mem_filter.mpr ⟨hcmem, by simp [hbad]⟩
      have hpos : 0 < (l₂.filter
          (fun b => b.resource == PhysId.externalRes r)).length :=
        List.length_pos.mpr (List.ne_nil_of_mem hcfilter)
      rw [List.length_append, List.length_cons] at hfle
      omega
    rw [hsplit]
    exact foldl_applyBarrier_single l₁ _ l₂ endSt (PhysId.externalRes r) rfl hl2

/-- C3: in every compiled plan, each resource access is preceded by a barrier
iff the access is incompatible with the state the previous access to the same
physical resource left the resource in (and a present barrier transitions
exactly from that state to the access's required state); and every external
resource starts the plan in its declared entry state, ends the whole plan in
its declared exit state, and receives at most one final exit-transition
barrier — a single entry-to-exit trajectory per plan. -/
theorem C3_barriers_correct (decls : List GraphDecl) (cg : CompiledGraph)
    (hc : compileGraph decls = .ok cg) :
    (checkEntries (physOf cg.description cg.slots) (initStates cg.description)
        cg.plan.entries).1 = true ∧
    (∀ r info, cg.description.resources[r]? = some info → info.external = true →
      initStates cg.description (.externalRes r) = some ⟨none, info.entry_state⟩ ∧
      stateValOf (planEndState (physOf cg.description cg.slots)
        (initStates cg.description) cg.plan) (.externalRes r) =
          some info.exit_state ∧
      (cg.plan.finalBars.filter
        fun b => b.resource == PhysId.externalRes r).length ≤ 1) := by
  obtain ⟨desc, order, hb, hk, hcg⟩ := compileGraph_ok hc
  subst hcg
  have h1 := checkEntries_synth desc.nodes
    (physOf desc (allocateSlots (transientRequests desc order))) order
    (initStates desc)
  have h2 : (checkEntries (physOf desc (allocateSlots (transientRequests desc order)))
      (initStates desc)
      (synthNodes desc.nodes
        (physOf desc (allocateSlots (transientRequests desc order)))
        (initStates desc) order).1).2 =
      (synthNodes desc.nodes
        (physOf desc (allocateSlots (transientRequests desc order)))
        (initStates desc) order).2 :=
    congrArg Prod.snd h1
  constructor
  · show (checkEntries (physOf desc (allocateSlots (transientRequests desc order)))
      (initStates desc)
      (synthNodes desc.nodes
        (physOf desc (allocateSlots (transientRequests desc order)))
        (initStates desc) order).1).1 = true
    rw [h1]
  · intro r info hr hext
    have hinit : initStates desc (.externalRes r) = some ⟨none, info.entry_state⟩ := by
      simp [initStates]
      simp only [hr] at *
      simp [hr, hext]
    refine ⟨hinit, ?_, ?_⟩
    · have hsome : ((synthNodes desc.nodes
          (physOf desc (allocateSlots (transientRequests desc order)))
          (initStates desc) order).2 (.externalRes r)).isSome = true :=
        synthNodes_isSome desc.nodes _ order (initStates desc) (.externalRes r)
          (by rw [hinit]; rfl)
      cases hls0 : (synthNodes desc.nodes
          (physOf desc (allocateSlots (transientRequests desc order)))
          (initStates desc) order).2 (.externalRes r) with
      | none => rw [hls0] at hsome; cases hsome
      | some ls0 =>
          show stateValOf
            ((finalBarriers desc
              (synthNodes desc.nodes
                (physOf desc (allocateSlots (transientRequests desc order)))
                (initStates desc) order).2).foldl applyBarrier
              (checkEntries (physOf desc (allocateSlots (transientRequests desc order)))
                (initStates desc)
                (synthNodes desc.nodes
                  (physOf desc (allocateSlots (transientRequests desc order)))
                  (initStates desc) order).1).2)
            (.externalRes r) = some info.exit_state
          rw [h2]
          exact finalBarriers_end_state desc _ r info ls0 hr hext hls0
    · show ((finalBarriers desc
          (synthNodes desc.nodes
            (physOf desc (allocateSlots (transientRequests desc order)))
            (initStates desc) order).2).filter
          fun b => b.resource == PhysId.externalRes r).length ≤ 1
      exact finalBarriers_filter_le_one desc _ r

/-- C2: in every compiled graph, no two logical resources assigned to the
same physical slot have overlapping lifetime intervals (intervals taken as
first-use/last-use node indices in scheduled order). -/
theorem C2_no_overlapping_aliases (decls : List GraphDecl) (cg : CompiledGraph)
    (hc : compileGraph decls = .ok cg) :
    ∀ s ∈ cg.slots, s.occupants.Pairwise fun a b => lifeDisjoint a.2 b.2 := by
  obtain ⟨desc, order, hb, hk, hcg⟩ := compileGraph_ok hc
  subst hcg
  exact allocateSlots_disjoint (transientRequests desc order)

/-- C4: the compile pipeline (builder, scheduler, allocator, barrier
synthesizer) is deterministic — equal declaration sequences compile to equal
outputs, in particular equal scheduled order and aliasing assignment — and
ties among ready nodes are broken by declaration (builder insertion) order:
the scheduler always picks the ready node with the least declaration index. -/
theorem C4_deterministic_tiebreak :
    (∀ d₁ d₂ : List GraphDecl, d₁ = d₂ →
      compileGraph d₁ = compileGraph d₂) ∧
    (∀ (nodes : List LogicalNode) (sched remaining : List Nat) (n : Nat),
      remaining.Pairwise (fun x y => x ≤ y) →
      pickReady nodes sched remaining = some n →
      predsScheduled nodes sched n = true ∧
        ∀ m ∈ remaining, predsScheduled nodes sched m = true → n ≤ m) := by
  constructor
  · intro d₁ d₂ h
    rw [h]
  · intro nodes sched remaining n hs hp
    exact ⟨(pickReady_least hs hp).2.1, (pickReady_least hs hp).2.2⟩

/-- C5: a declaration sequence whose usage stream contains two writes to the
same resource with no intervening read is rejected by the builder with the
ambiguous-write-order `GraphDeclarationError`, and the whole compile pipeline
returns that same error — no plan is ever produced, so scheduling and
execution never occur. -/
theorem C5_ambiguous_write_rejected (decls : List GraphDecl) (r : Nat)
    (hscope : declsWellScoped 0 decls = true)
    (hdw : UnreadDoubleWrite r (usageStream decls)) :
    ∃ r', build decls = .error (.ambiguousWriteOrder r') ∧
      compileGraph decls = .error (.ambiguousWriteOrder r') := by
  obtain ⟨r', hr'⟩ := build_error_of_double_write hscope hdw
  refine ⟨r', hr', ?_⟩
  rw [compileGraph, hr']

/-- A sample declaration sequence: one external image (entry/exit state 10),
one transient image, a node writing the transient, and a node reading the
transient and writing the external image. -/
def sampleDecls : List GraphDecl :=
  [.addExternalImage 10 10,
   .createImage 5 3,
   .addNode [⟨1, .write, 2⟩],
   .addNode [⟨1, .read, 3⟩, ⟨0, .write, 4⟩]]

/-- The compiled graph of `sampleDecls`. -/
def sampleCompiled : CompiledGraph :=
  ⟨⟨[⟨0, 0, true, 10, 10⟩, ⟨5, 3, false, 0, 0⟩],
    [⟨[⟨1, .write, 2⟩]⟩, ⟨[⟨1, .read, 3⟩, ⟨0, .write, 4⟩]⟩]⟩,
   [0, 1],
   [⟨5, 3, [(1, ⟨0, 1⟩)]⟩],
   ⟨[⟨0, [(⟨1, .write, 2⟩, none)]⟩,
     ⟨1, [(⟨1, .read, 3⟩, some ⟨.slot 0, 2, 3⟩),
          (⟨0, .write, 4⟩, some ⟨.externalRes 0, 10, 4⟩)]⟩],
    [⟨.externalRes 0, 4, 10⟩]⟩⟩

/-- Witness for C2 on `sampleDecls`. -/
theorem C2_no_overlapping_aliases_witness :
    compileGraph sampleDecls = .ok sampleCompiled ∧
    ∀ s ∈ sampleCompiled.slots,
      s.occupants.Pairwise fun a b => lifeDisjoint a.2 b.2 :=
  ⟨rfl, C2_no_overlapping_aliases sampleDecls sampleCompiled rfl⟩

/-- Witness for C3 on `sampleDecls`: the checker passes and the external
image (resource 0, entry/exit state 10) starts at 10, ends at 10, with at
most one final barrier. -/
theorem C3_barriers_correct_witness :
    compileGraph sampleDecls = .ok sampleCompiled ∧
    (checkEntries (physOf sampleCompiled.description sampleCompiled.slots)
      (initStates sampleCompiled.description) sampleCompiled.plan.entries).1 = true ∧
    (initStates sampleCompiled.description (.externalRes 0) = some ⟨none, 10⟩ ∧
      stateValOf (planEndState (physOf sampleCompiled.description sampleCompiled.slots)
        (initStates sampleCompiled.description) sampleCompiled.plan)
        (.externalRes 0) = some 10 ∧
      (sampleCompiled.plan.finalBars.filter
        fun b => b.resource == PhysId.externalRes 0).length ≤ 1) :=
  ⟨rfl, (C3_barriers_correct sampleDecls sampleCompiled rfl).1,
   (C3_barriers_correct sampleDecls sampleCompiled rfl).2 0 ⟨0, 0, true, 10, 10⟩
     rfl rfl⟩

/-- Witness for C4: determinism at `sampleDecls` and the tie-break at the
first scheduling step of `sampleNodes`. -/
theorem C4_deterministic_tiebreak_witness :
    compileGraph sampleDecls = compileGraph sampleDecls ∧
    (predsScheduled sampleNodes [] 0 = true ∧
      ∀ m ∈ [0, 1], predsScheduled sampleNodes [] m = true → 0 ≤ m) :=
  ⟨C4_deterministic_tiebreak.1 sampleDecls sampleDecls rfl,
   C4_deterministic_tiebreak.2 sampleNodes [] [0, 1] 0 (by decide) rfl⟩

/-- A declaration sequence in which two nodes write resource 0 with no
intervening read. -/
def doubleWriteDecls : List GraphDecl :=
  [.createImage 0 0, .addNode [⟨0, .write, 1⟩], .addNode [⟨0, .write, 2⟩]]

/-- Witness for C5 on `doubleWriteDecls`. -/
theorem C5_ambiguous_write_rejected_witness :
    declsWellScoped 0 doubleWriteDecls = true ∧
    UnreadDoubleWrite 0 (usageStream doubleWriteDecls) ∧
    ∃ r', build doubleWriteDecls = .error (.ambiguousWriteOrder r') ∧
      compileGraph doubleWriteDecls = .error (.ambiguousWriteOrder r') := by
  have hdw : UnreadDoubleWrite 0 (usageStream doubleWriteDecls) :=
    ⟨[], [], [], ⟨0, .write, 1⟩, ⟨0, .write, 2⟩, rfl, rfl, rfl, rfl, rfl,
      fun u hu => absurd hu (List.not_mem_nil u)⟩
  exact ⟨rfl, hdw, C5_ambiguous_write_rejected doubleWriteDecls 0 rfl hdw⟩

end RafxProof
